import Mathlib

/-!
Verification development for the subscription capacity manager and the
freshness/fallback market-data bus of the PY-GIT-Quant repository.

The definitions below are a shallow embedding of `src/scanner_coordinator.py`
(class `SubscriptionManager`) and `src/market_data.py` (class `MarketDataBus`
and `is_market_hours`), together with the configuration constants from
`src/config.py` that those files use.

Modelling conventions:
* Python dictionaries become association lists that preserve insertion order
  (Python dicts iterate in insertion order, which matters for the stable sort
  in `_make_room`); assignment updates the first matching key in place and
  appends new keys at the end, exactly like a Python dict.
* Timestamps (`time.time()` values) become integers; within a single call of
  an operation the several `time.time()` reads are modelled as one instant
  `now` passed as a parameter.
* Calls into the external providers (`ib.cancelMktData`, `market_bus.subscribe`,
  `ib.qualifyContracts`, `ib.reqMktData`, `ib.reqHistoricalData`) may raise in
  the source; each such call is modelled by a Boolean (or oracle function)
  input saying whether the call succeeded, and by an explicit result value for
  calls that return data.
* Python float prices become the type `Px`: a rational number, or one of the
  non-finite values NaN / +inf / -inf, so that `math.isnan` and Python
  truthiness (`0.0` falsy, `nan` truthy) are modelled exactly.
-/

/-! ## Configuration constants (src/config.py) -/

def IB_MAX_SUBSCRIPTIONS : Int := 50

def PRIORITY_POSITION : Int := 100

def PRIORITY_FUTURES : Int := 90

def PRIORITY_OPTIONS : Int := 60

def PRIORITY_SCANNER : Int := 25

def OPTIONS_SLOTS : Int := 10

def SCANNER_MIN_SLOTS : Int := 10

def SCANNER_MAX_SLOTS : Int := 30

def FALLBACK_TRIGGER_SECONDS : Int := 5

def FALLBACK_COOLDOWN_SECONDS : Int := 300

/-- `PREMARKET_START = "04:00"`, in minutes since midnight. -/
def PREMARKET_START : Nat := 4 * 60

/-- `REGULAR_START = "09:30"`, in minutes since midnight. -/
def REGULAR_START : Nat := 9 * 60 + 30

/-- `REGULAR_END = "16:00"`, in minutes since midnight. -/
def REGULAR_END : Nat := 16 * 60

/-- `AFTERHOURS_END = "20:00"`, in minutes since midnight. -/
def AFTERHOURS_END : Nat := 20 * 60

/-! ## Association lists with Python-dict semantics -/

/-- `d.get(k)` / `d[k]` lookup: first entry with the given key. -/
def alookup {α : Type} : List (String × α) → String → Option α
  | [], _ => none
  | (k, v) :: rest, s => if k = s then some v else alookup rest s

/-- `d[k] = v`: update the first matching key in place, else append at the
end (Python dicts keep insertion order and append new keys at the end). -/
def aset {α : Type} : List (String × α) → String → α → List (String × α)
  | [], k, v => [(k, v)]
  | (k0, v0) :: rest, k, v =>
      if k0 = k then (k, v) :: rest else (k0, v0) :: aset rest k v

/-- `del d[k]`: remove the first entry with the given key. -/
def aerase {α : Type} : List (String × α) → String → List (String × α)
  | [], _ => []
  | (k0, v0) :: rest, k =>
      if k0 = k then rest else (k0, v0) :: aerase rest k

/-- `d.setdefault(k, v)`: append `(k, v)` only when the key is absent. -/
def asetdefault {α : Type} (l : List (String × α)) (k : String) (v : α) :
    List (String × α) :=
  match alookup l k with
  | some _ => l
  | none => l ++ [(k, v)]

/-! ## Subscription manager state (src/scanner_coordinator.py) -/

/-- One value of the `_subscriptions` dict:
`{priority, contract, timestamp, last_activity}`.  The stored contract
object is only ever handed back to the provider, so it carries no
information the embedding needs and is omitted. -/
structure SubInfo where
  priority : Int
  timestamp : Int
  last_activity : Int
deriving Repr, DecidableEq

/-- The mutable state of `SubscriptionManager`: the `_subscriptions` dict
(symbol to record, in insertion order) and the `_capacity` field, set to
`IB_MAX_SUBSCRIPTIONS` in `__init__`. -/
structure MState where
  subscriptions : List (String × SubInfo)
  capacity : Int
deriving Repr, DecidableEq

/-- The state right after `SubscriptionManager.__init__`. -/
def initState : MState :=
  { subscriptions := [], capacity := IB_MAX_SUBSCRIPTIONS }

/-- `_get_current_capacity`: `self._capacity - len(self._subscriptions)`. -/
def get_current_capacity (st : MState) : Int :=
  st.capacity - st.subscriptions.length

/-- The sort key used by `_make_room`:
`key=lambda x: (x[1].priority, x[1].last_activity)` compared as a Python
tuple, so lower priority first and, for equal priorities, older
`last_activity` first. -/
def evictKeyLe (a b : SubInfo) : Prop :=
  a.priority < b.priority ∨ (a.priority = b.priority ∧ a.last_activity ≤ b.last_activity)

instance (a b : SubInfo) : Decidable (evictKeyLe a b) := by
  unfold evictKeyLe; exact inferInstance

/-- Stable insertion used to model `list.sort`: an element is placed before
the first element whose key is not smaller, so elements with equal keys keep
their original relative order, as Python sort (which is stable) does. -/
def insertByKey (x : String × SubInfo) :
    List (String × SubInfo) → List (String × SubInfo)
  | [] => [x]
  | y :: ys => if evictKeyLe x.2 y.2 then x :: y :: ys else y :: insertByKey x ys

/-- Stable sort by `(priority, last_activity)` modelling
`candidates.sort(key=lambda x: (x[1].priority, x[1].last_activity))`. -/
def sortByKey : List (String × SubInfo) → List (String × SubInfo)
  | [] => []
  | x :: xs => insertByKey x (sortByKey xs)

/-- The candidate list computed inside `_make_room`: all current
subscriptions whose priority is strictly below the required priority. -/
def candidatesOf (st : MState) (required_priority : Int) :
    List (String × SubInfo) :=
  st.subscriptions.filter (fun p => decide (p.2.priority < required_priority))

/-- `_unsubscribe(symbol)`.  If the symbol is not subscribed, return.
Otherwise call `ib.cancelMktData(contract)` and then delete the record;
both statements sit inside one `try`, so when the provider call raises
(`cancelOk = false`) the `del` is never reached and the record stays. -/
def unsubscribe (st : MState) (symbol : String) (cancelOk : Bool) : MState :=
  match alookup st.subscriptions symbol with
  | none => st
  | some _ =>
      if cancelOk then
        { st with subscriptions := aerase st.subscriptions symbol }
      else st

/-- `_make_room(required_priority)`: filter candidates with strictly lower
priority; if empty return `False`; otherwise sort by
`(priority, last_activity)` and `_unsubscribe` the first element, returning
`True` (whether or not the teardown call inside `_unsubscribe` succeeded). -/
def make_room (st : MState) (required_priority : Int) (cancelOk : Bool) :
    MState × Bool :=
  match sortByKey (candidatesOf st required_priority) with
  | [] => (st, false)
  | c :: _ => (unsubscribe st c.1 cancelOk, true)

/-- `_subscribe(symbol, contract, priority)`.  Already subscribed: bump the
stored priority if the new one is higher and return `True`.  Otherwise, when
no capacity is left, try `_make_room`; on refusal return `False`.  Then call
`market_bus.subscribe` and create the record; the record creation sits after
the provider call inside one `try`, so when the call raises
(`subOk = false`) no record is created and `False` is returned. -/
def subscribe (st : MState) (symbol : String) (priority : Int) (now : Int)
    (subOk : Bool) (cancelOk : Bool) : MState × Bool :=
  match alookup st.subscriptions symbol with
  | some info =>
      if priority > info.priority then
        let subs := aset st.subscriptions symbol { info with priority := priority }
        ({ st with subscriptions := subs }, true)
      else (st, true)
  | none =>
      let roomed : MState × Bool :=
        if get_current_capacity st ≤ 0 then make_room st priority cancelOk
        else (st, true)
      if roomed.2 then
        if subOk then
          let newInfo : SubInfo :=
            { priority := priority, timestamp := now, last_activity := now }
          let subs := aset roomed.1.subscriptions symbol newInfo
          ({ roomed.1 with subscriptions := subs }, true)
        else (roomed.1, false)
      else (roomed.1, false)

/-- Bumping `last_activity` of an existing record:
`self._subscriptions[symbol].last_activity = time.time()`. -/
def touch (st : MState) (symbol : String) (now : Int) : MState :=
  match alookup st.subscriptions symbol with
  | none => st
  | some info =>
      let subs := aset st.subscriptions symbol { info with last_activity := now }
      { st with subscriptions := subs }

/-- `_cleanup_stale()`: collect every subscription whose priority is below
`PRIORITY_FUTURES` and whose activity age exceeds the local
`stale_threshold = 600`, then `_unsubscribe` each of them (each teardown
call may fail independently, hence the per-symbol oracle). -/
def cleanup_stale (st : MState) (now : Int) (cancelOks : String → Bool) : MState :=
  let to_remove :=
    (st.subscriptions.filter (fun p =>
      decide (p.2.priority < PRIORITY_FUTURES) &&
      decide (now - p.2.last_activity > 600))).map Prod.fst
  to_remove.foldl (fun s sym => unsubscribe s sym (cancelOks sym)) st

/-- Input of `_sync_positions` for one position in `STATE.positions`:
its symbol, whether `_get_contract_for_position` produced a contract, and
the outcomes of the provider calls made while subscribing it. -/
structure PosIn where
  symbol : String
  contractOk : Bool
  subOk : Bool
  cancelOk : Bool
  now : Int

/-- `_sync_positions()`: for every position symbol, subscribe it at
`PRIORITY_POSITION` when not yet subscribed (and a contract could be
built), else bump its activity. -/
def sync_positions (st : MState) (positions : List PosIn) : MState :=
  positions.foldl (fun s p =>
    match alookup s.subscriptions p.symbol with
    | none =>
        if p.contractOk then
          (subscribe s p.symbol PRIORITY_POSITION p.now p.subOk p.cancelOk).1
        else s
    | some _ => touch s p.symbol p.now) st

/-- Input of `_sync_futures_watchlist` for one watchlist symbol: the source
iterates the fixed `FUTURES_WATCHLIST`; `qualifyOk` records whether
`ib.qualifyContracts` raised. -/
structure FutIn where
  symbol : String
  qualifyOk : Bool
  subOk : Bool
  cancelOk : Bool
  now : Int

/-- `_sync_futures_watchlist()`: subscribe each watchlist symbol at
`PRIORITY_FUTURES` when not yet subscribed (skipping it when
`qualifyContracts` raises), else bump its activity. -/
def sync_futures (st : MState) (watch : List FutIn) : MState :=
  watch.foldl (fun s f =>
    match alookup s.subscriptions f.symbol with
    | none =>
        if f.qualifyOk then
          (subscribe s f.symbol PRIORITY_FUTURES f.now f.subOk f.cancelOk).1
        else s
    | some _ => touch s f.symbol f.now) st

/-- One ranked scanner result handed to `_run_stock_scanner`. -/
structure ScanIn where
  symbol : String
  subOk : Bool
  cancelOk : Bool
  now : Int

/-- `_run_stock_scanner()`: take the top
`min(len(top_stocks), SCANNER_MAX_SLOTS, max(SCANNER_MIN_SLOTS, available - OPTIONS_SLOTS))`
ranked stocks, subscribe the new ones at `PRIORITY_SCANNER` and bump the
existing ones, then `_unsubscribe` every `PRIORITY_SCANNER` subscription
that dropped out of the selected set. -/
def run_stock_scanner (st : MState) (top_stocks : List ScanIn)
    (removeCancelOk : String → Bool) : MState :=
  if top_stocks.isEmpty then st
  else
    let available := get_current_capacity st
    let max_stocks : Int :=
      min (min (top_stocks.length : Int) SCANNER_MAX_SLOTS)
        (max SCANNER_MIN_SLOTS (available - OPTIONS_SLOTS))
    let stocks_to_subscribe := top_stocks.take max_stocks.toNat
    let current := stocks_to_subscribe.map ScanIn.symbol
    let st1 := stocks_to_subscribe.foldl (fun s q =>
      match alookup s.subscriptions q.symbol with
      | none => (subscribe s q.symbol PRIORITY_SCANNER q.now q.subOk q.cancelOk).1
      | some _ => touch s q.symbol q.now) st
    let scanner_subs :=
      (st1.subscriptions.filter (fun p =>
        decide (p.2.priority = PRIORITY_SCANNER))).map Prod.fst
    scanner_subs.foldl (fun s sym =>
      if current.contains sym then s else unsubscribe s sym (removeCancelOk sym)) st1

/-- One iteration step of the `_scan_loop` admission machinery: a positions
sync, a futures-watchlist sync, a stock-scanner pass, or a staleness sweep. -/
inductive Op where
  | posSync (positions : List PosIn)
  | futSync (watch : List FutIn)
  | stockScan (top : List ScanIn) (removeCancelOk : String → Bool)
  | cleanup (now : Int) (cancelOks : String → Bool)

def applyOp (st : MState) : Op → MState
  | .posSync ps => sync_positions st ps
  | .futSync ws => sync_futures st ws
  | .stockScan ts f => run_stock_scanner st ts f
  | .cleanup now f => cleanup_stale st now f

def runOps (st : MState) (ops : List Op) : MState := ops.foldl applyOp st

/-- Every channel-teardown call that an admission performed through this
operation could make (via `_make_room` inside `_subscribe`) succeeds. -/
def opCancelsOk : Op → Prop
  | .posSync ps => ∀ p ∈ ps, p.cancelOk = true
  | .futSync ws => ∀ w ∈ ws, w.cancelOk = true
  | .stockScan ts _ => ∀ q ∈ ts, q.cancelOk = true
  | .cleanup _ _ => True

/-! ## Market data bus (src/market_data.py) -/

/-- A Python float price value: a finite rational, or NaN, or one of the two
infinities.  `math.isnan` is true only for `nan`; Python truthiness is false
exactly for `0.0` (and for `None`, handled via `Option Px`). -/
inductive Px where
  | num (q : ℚ)
  | nan
  | inf
  | ninf
deriving Repr, DecidableEq

/-- Python truthiness of an optional float: `None` and `0.0` are falsy,
every other float (including `nan` and the infinities) is truthy. -/
def pxTruthy : Option Px → Bool
  | none => false
  | some (Px.num q) => decide (q ≠ 0)
  | some Px.nan => true
  | some Px.inf => true
  | some Px.ninf => true

/-- `a or b` on optional floats: the first operand when truthy, else the
second operand unchanged. -/
def pyOr (a b : Option Px) : Option Px :=
  if pxTruthy a then a else b

/-- `isinstance(px, float) and math.isnan(px)` on an optional value. -/
def isSomeNan : Option Px → Bool
  | some Px.nan => true
  | _ => false

/-- `px is None or (isinstance(px, float) and math.isnan(px))`. -/
def isNoneOrNan : Option Px → Bool
  | none => true
  | some Px.nan => true
  | some _ => false

/-- One value of the `self.tickers` dict: `{"last": px, "ts": ts}`, both
fields `None` until first written. -/
structure TickRec where
  last : Option Px
  ts : Option Int
deriving Repr, DecidableEq

/-- The mutable state of `MarketDataBus`: the subscribed symbols (the keys
of `self._subs`; the stored contract/ticker pair itself lives provider-side
and is modelled as a per-call input), `self.tickers`, `self.history`
(a deque with `maxlen = self.window` per symbol), `self._last_hist_fetch`
and `self.window`.  The bar accumulator `self._bar_data` and the telemetry
written into the process-wide `STATE` object are not referenced by any
claim and are omitted. -/
structure Bus where
  subs : List String
  tickers : List (String × TickRec)
  history : List (String × List Px)
  last_hist_fetch : List (String × Int)
  window : Nat
deriving Repr, DecidableEq

/-- `deque(maxlen=window).append(px)`: append, dropping from the front when
the bound is exceeded. -/
def pushWindow (l : List Px) (px : Px) (window : Nat) : List Px :=
  let l1 := l ++ [px]
  if l1.length > window then l1.drop (l1.length - window) else l1

/-- `self.history[symbol].append(px)`.  The source indexes the deque
directly (a missing key would raise `KeyError`); every caller reaches this
with the key present, and on a missing key the map below is the identity. -/
def histAppend (h : List (String × List Px)) (sym : String) (px : Px)
    (window : Nat) : List (String × List Px) :=
  h.map (fun p => if p.1 = sym then (p.1, pushWindow p.2 px window) else p)

/-- `_record_tick(symbol, px, ts)`: overwrite `self.tickers[symbol]` with
`{"last": px, "ts": ts}` and append `px` to the bounded price history.
(The further writes to `STATE` and to the bar accumulator touch only
omitted telemetry state.) -/
def record_tick (bus : Bus) (sym : String) (px : Px) (ts : Int) : Bus :=
  let tks := aset bus.tickers sym { last := some px, ts := some ts }
  let hst := histAppend bus.history sym px bus.window
  { bus with tickers := tks, history := hst }

/-- `MarketDataBus.subscribe(symbol, contract)`: set up empty ticker and
history records (`setdefault`, so existing data is kept), then call
`ib.reqMktData`; only on success is the symbol entered into `self._subs`.
When the provider call raises (`reqOk = false`) the exception is re-raised
to the caller, with the ticker/history records already created. -/
def bus_subscribe (bus : Bus) (sym : String) (reqOk : Bool) : Bus × Bool :=
  let tks := asetdefault bus.tickers sym { last := none, ts := none }
  let hst := asetdefault bus.history sym []
  let bus1 := { bus with tickers := tks, history := hst }
  if reqOk then
    let s1 := if bus1.subs.contains sym then bus1.subs else bus1.subs ++ [sym]
    ({ bus1 with subs := s1 }, true)
  else (bus1, false)

/-- The per-call state of the provider-side `ticker` object stored in
`self._subs[symbol]`: the fields read by `_live_tick`.  Unset fields are
`nan` on the provider side but may also be `None`. -/
structure Ticker where
  last : Option Px
  close : Option Px
  marketPrice : Option Px
  midpoint : Option Px
deriving Repr, DecidableEq

/-- The price candidate computed by `_live_tick`:
`ticker.last or ticker.close or ticker.marketPrice() or ticker.midpoint()`,
then `nan` normalized to `None`. -/
def tickerPx (tk : Ticker) : Option Px :=
  let px0 := pyOr tk.last (pyOr tk.close (pyOr tk.marketPrice tk.midpoint))
  if isSomeNan px0 then none else px0

/-- `_live_tick(symbol)`, returning `none` where the source raises
(`RuntimeError` for an unsubscribed symbol, `KeyError` for a missing
tickers record).  With no usable provider price the stored last price is
returned and the record is rewritten as `{"last": last, "ts": now}`;
otherwise the price is recorded via `_record_tick`. -/
def live_tick (bus : Bus) (sym : String) (now : Int) (tk : Ticker) :
    Option (Option Px × Int × Bus) :=
  if bus.subs.contains sym then
    match tickerPx tk with
    | none =>
        match alookup bus.tickers sym with
        | none => none
        | some tkrec =>
            let tks := aset bus.tickers sym { last := tkrec.last, ts := some now }
            some (tkrec.last, now, { bus with tickers := tks })
    | some p => some (some p, now, record_tick bus sym p now)
  else none

/-- The result of one `ib.reqHistoricalData` request: the bar list on a
normal return, or `err` when the request raised. -/
inductive HistResult where
  | ok (bars : List Px)
  | err
deriving Repr, DecidableEq

/-- The close of the last returned bar, when any: `bars[-1].close` behind
`if bars and len(bars) > 0`. -/
def respLastBar : HistResult → Option Px
  | .ok bars => bars.getLast?
  | .err => none

/-- The part of `_historical_fallback` after the cooldown guard: bail out
when no subscribed contract exists, otherwise write the fetch timestamp
(before the request, so it is recorded whether or not the request succeeds)
and, on a non-empty bar list, record the last bar close as a synthetic tick.
A raised request (`HistResult.err`) or an empty bar list leaves the tick
state untouched. -/
def historical_fallback_fetch (bus : Bus) (sym : String) (now : Int)
    (resp : HistResult) : Bus × Bool :=
  if bus.subs.contains sym then
    let bus1 := { bus with last_hist_fetch := aset bus.last_hist_fetch sym now }
    match respLastBar resp with
    | none => (bus1, true)
    | some close => (record_tick bus1 sym close now, true)
  else (bus, false)

/-- `_historical_fallback(symbol)`.  Returns the new bus state and whether
the `reqHistoricalData` request was issued.  `HISTORICAL_FALLBACK_ENABLED`
is `True` in the configuration.  The cooldown guard is
`if last_hist_ts and (now - last_hist_ts) < FALLBACK_COOLDOWN_SECONDS`,
with Python float truthiness on `last_hist_ts`. -/
def historical_fallback (bus : Bus) (sym : String) (now : Int)
    (resp : HistResult) : Bus × Bool :=
  match alookup bus.last_hist_fetch sym with
  | some t =>
      if t ≠ 0 ∧ now - t < FALLBACK_COOLDOWN_SECONDS then (bus, false)
      else historical_fallback_fetch bus sym now resp
  | none => historical_fallback_fetch bus sym now resp

/-- `phase(now)` from `is_market_hours()`: weekday (0 = Monday) and time of
day in minutes since midnight; weekends are always closed, otherwise the
four configured boundaries classify the phase. -/
def is_market_hours (weekday : Nat) (tod : Nat) : Bool × String :=
  if weekday ≥ 5 then (false, "closed")
  else if PREMARKET_START ≤ tod ∧ tod < REGULAR_START then (true, "pre")
  else if REGULAR_START ≤ tod ∧ tod < REGULAR_END then (true, "regular")
  else if REGULAR_END ≤ tod ∧ tod < AFTERHOURS_END then (true, "after")
  else (false, "closed")

/-- Python truthiness of the stored optional timestamp. -/
def tsTruthy : Option Int → Bool
  | none => false
  | some t => decide (t ≠ 0)

/-- `self.tickers.get(symbol, {}).get("ts") or ts`: the stored timestamp
when truthy, else the default. -/
def pyOrTs (o : Option Int) (d : Int) : Int :=
  match o with
  | some t => if t ≠ 0 then t else d
  | none => d

/-- The `needs_fallback` flag computed inside `get_last`:
set when the live price is `None`/NaN, else when the stored timestamp is
truthy and at least `FALLBACK_TRIGGER_SECONDS` old, and forced whenever the
market phase is not tradable. -/
def needs_fallback (px0 : Option Px) (last_ts : Option Int) (now : Int)
    (weekday tod : Nat) : Bool :=
  let cond1 := isNoneOrNan px0
  let cond2 := tsTruthy last_ts &&
    decide (FALLBACK_TRIGGER_SECONDS ≤ now - last_ts.getD 0)
  cond1 || (!cond1 && cond2) || !(is_market_hours weekday tod).1

/-- The observable outcome of one `get_last` call: the returned price and
timestamp, the bus state afterwards, whether `_historical_fallback` was
invoked, and whether that invocation actually issued a historical-data
request. -/
structure ReadResult where
  px : Option Px
  ts : Int
  bus : Bus
  attempted : Bool
  fetched : Bool
deriving Repr, DecidableEq

/-- `get_last(symbol)`: run `_live_tick`, compute the fallback verdict,
invoke `_historical_fallback` when needed and re-read the stored record,
then normalize a NaN result to `None`.  Returns `none` where `_live_tick`
raises.  (The trailing write into `STATE.prices` touches only omitted
telemetry state.) -/
def get_last (bus : Bus) (sym : String) (now : Int) (tk : Ticker)
    (weekday tod : Nat) (resp : HistResult) : Option ReadResult :=
  match live_tick bus sym now tk with
  | none => none
  | some (px0, ts0, bus1) =>
      let last_ts := (alookup bus1.tickers sym).bind TickRec.ts
      let needs := needs_fallback px0 last_ts now weekday tod
      let fb := if needs then historical_fallback bus1 sym now resp
        else (bus1, false)
      let px1 := if needs then (alookup fb.1.tickers sym).bind TickRec.last
        else px0
      let ts1 := if needs then pyOrTs ((alookup fb.1.tickers sym).bind TickRec.ts) ts0
        else ts0
      let px2 := if isSomeNan px1 then none else px1
      some { px := px2, ts := ts1, bus := fb.1, attempted := needs, fetched := fb.2 }

/-! ## Lemmas about the association-list primitives -/

theorem alookup_aset_self {α : Type} (l : List (String × α)) (k : String) (v : α) :
    alookup (aset l k v) k = some v := by
  induction l with
  | nil => simp [aset, alookup]
  | cons p rest ih =>
      obtain ⟨k0, v0⟩ := p
      by_cases h : k0 = k
      · simp [aset, h, alookup]
      · simp [aset, h, alookup, ih]

theorem alookup_aset_ne {α : Type} (l : List (String × α)) (k k1 : String) (v : α)
    (h : k1 ≠ k) : alookup (aset l k v) k1 = alookup l k1 := by
  induction l with
  | nil => simp [aset, alookup, Ne.symm h]
  | cons p rest ih =>
      obtain ⟨k0, v0⟩ := p
      by_cases h0 : k0 = k
      · subst h0
        simp [aset, alookup, Ne.symm h]
      · simp [aset, h0, alookup, ih]

theorem length_aset_present {α : Type} (l : List (String × α)) (k : String)
    (v w : α) (h : alookup l k = some w) :
    (aset l k v).length = l.length := by
  induction l with
  | nil => simp [alookup] at h
  | cons p rest ih =>
      obtain ⟨k0, v0⟩ := p
      by_cases h0 : k0 = k
      · simp [aset, h0]
      · simp [alookup, h0] at h
        simp [aset, h0, ih h]

theorem length_aset_absent {α : Type} (l : List (String × α)) (k : String)
    (v : α) (h : alookup l k = none) :
    (aset l k v).length = l.length + 1 := by
  induction l with
  | nil => simp [aset]
  | cons p rest ih =>
      obtain ⟨k0, v0⟩ := p
      by_cases h0 : k0 = k
      · simp [alookup, h0] at h
      · simp [alookup, h0] at h
        simp [aset, h0, ih h]

theorem length_aerase {α : Type} (l : List (String × α)) (k : String) (v : α)
    (h : alookup l k = some v) :
    l.length = (aerase l k).length + 1 := by
  induction l with
  | nil => simp [alookup] at h
  | cons p rest ih =>
      obtain ⟨k0, v0⟩ := p
      by_cases h0 : k0 = k
      · simp [aerase, h0]
      · simp [alookup, h0] at h
        simp [aerase, h0, ih h]

theorem alookup_aerase_ne {α : Type} (l : List (String × α)) (k k1 : String)
    (h : k1 ≠ k) : alookup (aerase l k) k1 = alookup l k1 := by
  induction l with
  | nil => simp [aerase]
  | cons p rest ih =>
      obtain ⟨k0, v0⟩ := p
      by_cases h0 : k0 = k
      · subst h0
        simp [aerase, alookup, Ne.symm h]
      · simp [aerase, h0, alookup, ih]

theorem alookup_aerase_none {α : Type} (l : List (String × α)) (k k1 : String)
    (h : alookup l k1 = none) : alookup (aerase l k) k1 = none := by
  by_cases hk : k1 = k
  · subst hk
    induction l with
    | nil => simp [aerase, alookup]
    | cons p rest ih =>
        obtain ⟨k0, v0⟩ := p
        by_cases h0 : k0 = k1
        · simp [alookup, h0] at h
        · simp [alookup, h0] at h
          simp [aerase, h0, alookup, h0, ih h]
  · rw [alookup_aerase_ne l k k1 hk]
    exact h

theorem alookup_ne_none_of_mem {α : Type} (l : List (String × α)) (k : String)
    (v : α) (hm : (k, v) ∈ l) : alookup l k ≠ none := by
  induction l with
  | nil => simp at hm
  | cons p rest ih =>
      obtain ⟨k0, v0⟩ := p
      rcases List.mem_cons.mp hm with heq | htl
      · injection heq with h1 h2
        subst h1
        simp [alookup]
      · by_cases h0 : k0 = k
        · simp [alookup, h0]
        · simp only [alookup, if_neg h0]
          exact ih htl

theorem alookup_eq_none_of_not_mem_keys {α : Type} (l : List (String × α))
    (k : String) (h : k ∉ l.map Prod.fst) : alookup l k = none := by
  induction l with
  | nil => simp [alookup]
  | cons p rest ih =>
      obtain ⟨k0, v0⟩ := p
      simp only [List.map_cons, List.mem_cons] at h
      push_neg at h
      simp [alookup, Ne.symm h.1, ih h.2]

theorem alookup_of_mem_nodup {α : Type} (l : List (String × α)) (k : String)
    (v : α) (hnd : (l.map Prod.fst).Nodup) (hm : (k, v) ∈ l) :
    alookup l k = some v := by
  induction l with
  | nil => simp at hm
  | cons p rest ih =>
      obtain ⟨k0, v0⟩ := p
      simp only [List.map_cons, List.nodup_cons] at hnd
      rcases List.mem_cons.mp hm with heq | htl
      · injection heq with h1 h2
        subst h1
        subst h2
        simp [alookup]
      · by_cases h0 : k0 = k
        · exfalso
          subst h0
          exact hnd.1 (List.mem_map.mpr ⟨(k0, v), htl, rfl⟩)
        · simp only [alookup, if_neg h0]
          exact ih hnd.2 htl

theorem alookup_aerase_self_nodup {α : Type} (l : List (String × α)) (k : String)
    (hnd : (l.map Prod.fst).Nodup) : alookup (aerase l k) k = none := by
  induction l with
  | nil => simp [aerase, alookup]
  | cons p rest ih =>
      obtain ⟨k0, v0⟩ := p
      simp only [List.map_cons, List.nodup_cons] at hnd
      by_cases h0 : k0 = k
      · subst h0
        have hre : aerase ((k0, v0) :: rest) k0 = rest := by simp [aerase]
        rw [hre]
        exact alookup_eq_none_of_not_mem_keys rest k0 hnd.1
      · simp [aerase, h0, alookup, h0, ih hnd.2]

/-! ## Lemmas about the eviction sort -/

theorem evictKeyLe_refl (a : SubInfo) : evictKeyLe a a := by
  unfold evictKeyLe
  omega

theorem evictKeyLe_trans {a b c : SubInfo} (h1 : evictKeyLe a b)
    (h2 : evictKeyLe b c) : evictKeyLe a c := by
  unfold evictKeyLe at h1 h2 ⊢
  omega

theorem evictKeyLe_total (a b : SubInfo) : evictKeyLe a b ∨ evictKeyLe b a := by
  unfold evictKeyLe
  omega

theorem insertByKey_ne_nil (x : String × SubInfo) (l : List (String × SubInfo)) :
    insertByKey x l ≠ [] := by
  cases l with
  | nil => simp [insertByKey]
  | cons y ys =>
      unfold insertByKey
      split <;> simp

theorem sortByKey_eq_nil {l : List (String × SubInfo)}
    (h : sortByKey l = []) : l = [] := by
  cases l with
  | nil => rfl
  | cons x xs => exact absurd h (insertByKey_ne_nil x (sortByKey xs))

theorem mem_insertByKey (a x : String × SubInfo) (l : List (String × SubInfo)) :
    a ∈ insertByKey x l ↔ a = x ∨ a ∈ l := by
  induction l with
  | nil => simp [insertByKey]
  | cons y ys ih =>
      by_cases hk : evictKeyLe x.2 y.2
      · simp only [insertByKey, if_pos hk, List.mem_cons]
      · simp only [insertByKey, if_neg hk, List.mem_cons, ih]
        tauto

theorem mem_sortByKey (a : String × SubInfo) (l : List (String × SubInfo)) :
    a ∈ sortByKey l ↔ a ∈ l := by
  induction l with
  | nil => simp [sortByKey]
  | cons x xs ih =>
      simp only [sortByKey, mem_insertByKey, ih, List.mem_cons]

theorem sortByKey_head_min : ∀ (l : List (String × SubInfo)) (e : String × SubInfo)
    (rest : List (String × SubInfo)), sortByKey l = e :: rest →
    ∀ c ∈ l, evictKeyLe e.2 c.2 := by
  intro l
  induction l with
  | nil => intro e rest h; simp [sortByKey] at h
  | cons x xs ih =>
      intro e rest h
      simp only [sortByKey] at h
      cases hs : sortByKey xs with
      | nil =>
          rw [hs] at h
          simp only [insertByKey] at h
          injection h with h1 h2
          subst h1
          have hxs : xs = [] := sortByKey_eq_nil hs
          subst hxs
          intro c hc
          simp only [List.mem_cons, List.not_mem_nil, or_false] at hc
          subst hc
          exact evictKeyLe_refl _
      | cons b bs =>
          rw [hs] at h
          have hmin := ih b bs hs
          by_cases hk : evictKeyLe x.2 b.2
          · rw [insertByKey, if_pos hk] at h
            injection h with h1 h2
            subst h1
            intro c hc
            rcases List.mem_cons.mp hc with rfl | hcx
            · exact evictKeyLe_refl _
            · exact evictKeyLe_trans hk (hmin c hcx)
          · rw [insertByKey, if_neg hk] at h
            injection h with h1 h2
            subst h1
            have hbx : evictKeyLe b.2 x.2 :=
              (evictKeyLe_total x.2 b.2).resolve_left hk
            intro c hc
            rcases List.mem_cons.mp hc with rfl | hcx
            · exact hbx
            · exact hmin c hcx

/-! ## Lemmas about the subscription-manager operations -/

theorem length_aerase_le {α : Type} (l : List (String × α)) (k : String) :
    (aerase l k).length ≤ l.length := by
  induction l with
  | nil => simp [aerase]
  | cons p rest ih =>
      obtain ⟨k0, v0⟩ := p
      by_cases h0 : k0 = k
      · simp [aerase, h0]
      · simp only [aerase, if_neg h0, List.length_cons]
        omega

theorem unsubscribe_alookup_ne (st : MState) (symbol sym1 : String)
    (cancelOk : Bool) (h : sym1 ≠ symbol) :
    alookup (unsubscribe st symbol cancelOk).subscriptions sym1
      = alookup st.subscriptions sym1 := by
  unfold unsubscribe
  cases halc : alookup st.subscriptions symbol with
  | none => rfl
  | some w =>
      cases cancelOk with
      | false => rfl
      | true => simp [alookup_aerase_ne _ _ _ h]

theorem unsubscribe_alookup_none (st : MState) (symbol sym1 : String)
    (cancelOk : Bool) (h : alookup st.subscriptions sym1 = none) :
    alookup (unsubscribe st symbol cancelOk).subscriptions sym1 = none := by
  unfold unsubscribe
  cases halc : alookup st.subscriptions symbol with
  | none => exact h
  | some w =>
      cases cancelOk with
      | false => exact h
      | true => exact alookup_aerase_none _ _ _ h

theorem unsubscribe_length_le (st : MState) (symbol : String) (cancelOk : Bool) :
    (unsubscribe st symbol cancelOk).subscriptions.length
      ≤ st.subscriptions.length := by
  unfold unsubscribe
  cases halc : alookup st.subscriptions symbol with
  | none => exact le_refl _
  | some w =>
      cases cancelOk with
      | false => exact le_refl _
      | true => exact length_aerase_le _ _

theorem unsubscribe_capacity (st : MState) (symbol : String) (cancelOk : Bool) :
    (unsubscribe st symbol cancelOk).capacity = st.capacity := by
  unfold unsubscribe
  cases halc : alookup st.subscriptions symbol with
  | none => rfl
  | some w =>
      cases cancelOk with
      | false => rfl
      | true => rfl

theorem make_room_alookup_none (st : MState) (p : Int) (c : Bool) (sym : String)
    (h : alookup st.subscriptions sym = none) :
    alookup (make_room st p c).1.subscriptions sym = none := by
  unfold make_room
  cases hs : sortByKey (candidatesOf st p) with
  | nil => exact h
  | cons e es => exact unsubscribe_alookup_none _ _ _ _ h

theorem make_room_capacity (st : MState) (p : Int) (c : Bool) :
    (make_room st p c).1.capacity = st.capacity := by
  unfold make_room
  cases hs : sortByKey (candidatesOf st p) with
  | nil => rfl
  | cons e es => exact unsubscribe_capacity _ _ _

theorem unsubscribe_length_some (st : MState) (symbol : String) (w : SubInfo)
    (h : alookup st.subscriptions symbol = some w) :
    st.subscriptions.length = (unsubscribe st symbol true).subscriptions.length + 1 := by
  unfold unsubscribe
  rw [h]
  exact length_aerase _ _ _ h

theorem touch_inv (st : MState) (symbol : String) (now : Int)
    (hlen : (st.subscriptions.length : Int) ≤ st.capacity) :
    ((touch st symbol now).subscriptions.length : Int) ≤ (touch st symbol now).capacity ∧
    (touch st symbol now).capacity = st.capacity := by
  unfold touch
  cases halc : alookup st.subscriptions symbol with
  | none => exact ⟨hlen, rfl⟩
  | some info =>
      constructor
      · show ((aset st.subscriptions symbol _).length : Int) ≤ st.capacity
        rw [length_aset_present _ _ _ info halc]
        exact hlen
      · rfl

theorem subscribe_inv (st : MState) (symbol : String) (priority now : Int)
    (subOk : Bool) (hlen : (st.subscriptions.length : Int) ≤ st.capacity) :
    ((subscribe st symbol priority now subOk true).1.subscriptions.length : Int)
        ≤ (subscribe st symbol priority now subOk true).1.capacity ∧
    (subscribe st symbol priority now subOk true).1.capacity = st.capacity := by
  unfold subscribe
  cases halc : alookup st.subscriptions symbol with
  | some info =>
      dsimp only
      by_cases hp : priority > info.priority
      · rw [if_pos hp]
        constructor
        · show ((aset st.subscriptions symbol _).length : Int) ≤ st.capacity
          rw [length_aset_present _ _ _ info halc]
          exact hlen
        · rfl
      · rw [if_neg hp]
        exact ⟨hlen, rfl⟩
  | none =>
      dsimp only
      by_cases hcap : get_current_capacity st ≤ 0
      · rw [if_pos hcap]
        cases hs : sortByKey (candidatesOf st priority) with
        | nil =>
            rw [make_room, hs]
            exact ⟨hlen, rfl⟩
        | cons e es =>
            rw [make_room, hs]
            have hemem : e ∈ st.subscriptions := by
              have h1 := (mem_sortByKey e (candidatesOf st priority)).mp
                (hs ▸ List.mem_cons_self e es)
              exact (List.mem_filter.mp h1).1
            have hesome : alookup st.subscriptions e.1 ≠ none := by
              have : (e.1, e.2) ∈ st.subscriptions := by
                rw [Prod.mk.eta]; exact hemem
              exact alookup_ne_none_of_mem _ _ _ this
            cases hel : alookup st.subscriptions e.1 with
            | none => exact absurd hel hesome
            | some w =>
                have hlen1 := unsubscribe_length_some st e.1 w hel
                cases subOk with
                | false =>
                    constructor
                    · calc ((unsubscribe st e.1 true).subscriptions.length : Int)
                          ≤ st.subscriptions.length := by
                            exact_mod_cast unsubscribe_length_le st e.1 true
                      _ ≤ st.capacity := hlen
                      _ = (unsubscribe st e.1 true).capacity := (unsubscribe_capacity _ _ _).symm
                    · exact unsubscribe_capacity _ _ _
                | true =>
                    have habs : alookup (unsubscribe st e.1 true).subscriptions symbol = none :=
                      unsubscribe_alookup_none _ _ _ _ halc
                    constructor
                    · show ((aset (unsubscribe st e.1 true).subscriptions symbol _).length : Int)
                          ≤ (unsubscribe st e.1 true).capacity
                      rw [length_aset_absent _ _ _ habs, unsubscribe_capacity]
                      push_cast
                      omega
                    · exact unsubscribe_capacity _ _ _
      · rw [if_neg hcap]
        cases subOk with
        | false => exact ⟨hlen, rfl⟩
        | true =>
            unfold get_current_capacity at hcap
            constructor
            · show ((aset st.subscriptions symbol _).length : Int) ≤ st.capacity
              rw [length_aset_absent _ _ _ halc]
              push_cast
              omega
            · rfl

theorem foldl_inv_mem {β : Type} (P : MState → Prop) (f : MState → β → MState) :
    ∀ (l : List β) (s : MState),
      (∀ s0 b, b ∈ l → P s0 → P (f s0 b)) → P s → P (l.foldl f s) := by
  intro l
  induction l with
  | nil => intro s _ hs; simpa using hs
  | cons a as ih =>
      intro s hf hs
      simp only [List.foldl_cons]
      exact ih _ (fun s0 b hb => hf s0 b (List.mem_cons_of_mem _ hb))
        (hf s a (List.mem_cons_self _ _) hs)

theorem unsubscribe_inv (st : MState) (symbol : String) (cancelOk : Bool)
    (h : (st.subscriptions.length : Int) ≤ st.capacity ∧
      st.capacity = IB_MAX_SUBSCRIPTIONS) :
    ((unsubscribe st symbol cancelOk).subscriptions.length : Int)
        ≤ (unsubscribe st symbol cancelOk).capacity ∧
    (unsubscribe st symbol cancelOk).capacity = IB_MAX_SUBSCRIPTIONS := by
  constructor
  · calc ((unsubscribe st symbol cancelOk).subscriptions.length : Int)
        ≤ st.subscriptions.length := by exact_mod_cast unsubscribe_length_le st symbol cancelOk
    _ ≤ st.capacity := h.1
    _ = (unsubscribe st symbol cancelOk).capacity := (unsubscribe_capacity _ _ _).symm
  · rw [unsubscribe_capacity]
    exact h.2

theorem sync_positions_inv (st : MState) (ps : List PosIn)
    (hok : ∀ p ∈ ps, p.cancelOk = true)
    (h : (st.subscriptions.length : Int) ≤ st.capacity ∧
      st.capacity = IB_MAX_SUBSCRIPTIONS) :
    ((sync_positions st ps).subscriptions.length : Int)
        ≤ (sync_positions st ps).capacity ∧
    (sync_positions st ps).capacity = IB_MAX_SUBSCRIPTIONS := by
  unfold sync_positions
  refine foldl_inv_mem
    (fun s => (s.subscriptions.length : Int) ≤ s.capacity ∧
      s.capacity = IB_MAX_SUBSCRIPTIONS) _ ps st ?_ h
  intro s p hp hs
  cases halc : alookup s.subscriptions p.symbol with
  | none =>
      dsimp only
      by_cases hc : p.contractOk
      · rw [if_pos hc, hok p hp]
        have hi := subscribe_inv s p.symbol PRIORITY_POSITION p.now p.subOk hs.1
        exact ⟨hi.1, hi.2 ▸ hs.2⟩
      · rw [if_neg hc]
        exact hs
  | some info =>
      dsimp only
      have hi := touch_inv s p.symbol p.now hs.1
      exact ⟨hi.1, hi.2 ▸ hs.2⟩

theorem sync_futures_inv (st : MState) (ws : List FutIn)
    (hok : ∀ w ∈ ws, w.cancelOk = true)
    (h : (st.subscriptions.length : Int) ≤ st.capacity ∧
      st.capacity = IB_MAX_SUBSCRIPTIONS) :
    ((sync_futures st ws).subscriptions.length : Int)
        ≤ (sync_futures st ws).capacity ∧
    (sync_futures st ws).capacity = IB_MAX_SUBSCRIPTIONS := by
  unfold sync_futures
  refine foldl_inv_mem
    (fun s => (s.subscriptions.length : Int) ≤ s.capacity ∧
      s.capacity = IB_MAX_SUBSCRIPTIONS) _ ws st ?_ h
  intro s w hw hs
  cases halc : alookup s.subscriptions w.symbol with
  | none =>
      dsimp only
      by_cases hc : w.qualifyOk
      · rw [if_pos hc, hok w hw]
        have hi := subscribe_inv s w.symbol PRIORITY_FUTURES w.now w.subOk hs.1
        exact ⟨hi.1, hi.2 ▸ hs.2⟩
      · rw [if_neg hc]
        exact hs
  | some info =>
      dsimp only
      have hi := touch_inv s w.symbol w.now hs.1
      exact ⟨hi.1, hi.2 ▸ hs.2⟩

theorem run_stock_scanner_inv (st : MState) (ts : List ScanIn)
    (f : String → Bool) (hok : ∀ q ∈ ts, q.cancelOk = true)
    (h : (st.subscriptions.length : Int) ≤ st.capacity ∧
      st.capacity = IB_MAX_SUBSCRIPTIONS) :
    ((run_stock_scanner st ts f).subscriptions.length : Int)
        ≤ (run_stock_scanner st ts f).capacity ∧
    (run_stock_scanner st ts f).capacity = IB_MAX_SUBSCRIPTIONS := by
  unfold run_stock_scanner
  by_cases he : ts.isEmpty
  · rw [if_pos he]
    exact h
  · rw [if_neg he]
    dsimp only
    refine foldl_inv_mem
      (fun s => (s.subscriptions.length : Int) ≤ s.capacity ∧
        s.capacity = IB_MAX_SUBSCRIPTIONS) _ _ _ ?_ ?_
    · intro s sym hsym hs
      split
      · exact hs
      · exact unsubscribe_inv s sym (f sym) hs
    · refine foldl_inv_mem
        (fun s => (s.subscriptions.length : Int) ≤ s.capacity ∧
          s.capacity = IB_MAX_SUBSCRIPTIONS) _ _ _ ?_ h
      intro s q hq hs
      have hqts : q ∈ ts := List.take_subset _ _ hq
      cases halc : alookup s.subscriptions q.symbol with
      | none =>
          dsimp only
          rw [hok q hqts]
          have hi := subscribe_inv s q.symbol PRIORITY_SCANNER q.now q.subOk hs.1
          exact ⟨hi.1, hi.2 ▸ hs.2⟩
      | some info =>
          dsimp only
          have hi := touch_inv s q.symbol q.now hs.1
          exact ⟨hi.1, hi.2 ▸ hs.2⟩

theorem cleanup_stale_inv (st : MState) (now : Int) (cancelOks : String → Bool)
    (h : (st.subscriptions.length : Int) ≤ st.capacity ∧
      st.capacity = IB_MAX_SUBSCRIPTIONS) :
    ((cleanup_stale st now cancelOks).subscriptions.length : Int)
        ≤ (cleanup_stale st now cancelOks).capacity ∧
    (cleanup_stale st now cancelOks).capacity = IB_MAX_SUBSCRIPTIONS := by
  unfold cleanup_stale
  dsimp only
  refine foldl_inv_mem
    (fun s => (s.subscriptions.length : Int) ≤ s.capacity ∧
      s.capacity = IB_MAX_SUBSCRIPTIONS) _ _ _ ?_ h
  intro s sym hsym hs
  exact unsubscribe_inv s sym (cancelOks sym) hs

theorem applyOp_inv (st : MState) (op : Op) (hok : opCancelsOk op)
    (h : (st.subscriptions.length : Int) ≤ st.capacity ∧
      st.capacity = IB_MAX_SUBSCRIPTIONS) :
    ((applyOp st op).subscriptions.length : Int) ≤ (applyOp st op).capacity ∧
    (applyOp st op).capacity = IB_MAX_SUBSCRIPTIONS := by
  cases op with
  | posSync ps => exact sync_positions_inv st ps hok h
  | futSync ws => exact sync_futures_inv st ws hok h
  | stockScan ts f => exact run_stock_scanner_inv st ts f hok h
  | cleanup now f => exact cleanup_stale_inv st now f h

theorem runOps_inv (ops : List Op) (st : MState)
    (hok : ∀ op ∈ ops, opCancelsOk op)
    (h : (st.subscriptions.length : Int) ≤ st.capacity ∧
      st.capacity = IB_MAX_SUBSCRIPTIONS) :
    ((runOps st ops).subscriptions.length : Int) ≤ (runOps st ops).capacity ∧
    (runOps st ops).capacity = IB_MAX_SUBSCRIPTIONS := by
  unfold runOps
  refine foldl_inv_mem
    (fun s => (s.subscriptions.length : Int) ≤ s.capacity ∧
      s.capacity = IB_MAX_SUBSCRIPTIONS) _ ops st ?_ h
  intro s op hop hs
  exact applyOp_inv s op (hok op hop) hs

theorem foldl_unsubscribe_alookup (syms : List String) (st : MState)
    (g : String → Bool) (sym : String) (hns : sym ∉ syms) :
    alookup (syms.foldl (fun s x => unsubscribe s x (g x)) st).subscriptions sym
      = alookup st.subscriptions sym := by
  induction syms generalizing st with
  | nil => rfl
  | cons a as ih =>
      simp only [List.foldl_cons]
      have h1 : sym ∉ as := fun hh => hns (List.mem_cons_of_mem _ hh)
      have h2 : sym ≠ a := fun hh => hns (hh ▸ List.mem_cons_self a as)
      rw [ih _ h1, unsubscribe_alookup_ne _ _ _ _ h2]

/-! ## Claim theorems for the subscription capacity manager -/

/-- C1 (amended): starting from the empty subscription map, any sequence of
admission operations (position sync, futures-watchlist sync, scanner pass,
staleness sweep) keeps the number of entries of
`SubscriptionManager._subscriptions` at or below `IB_MAX_SUBSCRIPTIONS`,
PROVIDED every `ib.cancelMktData` call made while evicting for an admission
succeeds.  (The unamended claim fails: a failed teardown leaves the evicted
record in place while `_make_room` still reports success, so the new record
is created on top of a full map; see the counterexample theorem.) -/
theorem capacity_bound_requires_teardown_success (ops : List Op)
    (hok : ∀ op ∈ ops, opCancelsOk op) :
    ((runOps initState ops).subscriptions.length : Int) ≤ IB_MAX_SUBSCRIPTIONS := by
  have h := runOps_inv ops initState hok ⟨by decide, rfl⟩
  rw [← h.2]
  exact h.1

theorem capacity_bound_requires_teardown_success_witness :
    ((runOps initState
      [Op.posSync [⟨"AAPL", true, true, true, 0⟩]]).subscriptions.length : Int)
      ≤ IB_MAX_SUBSCRIPTIONS := by
  apply capacity_bound_requires_teardown_success
  intro op hop
  rcases List.mem_singleton.mp hop with rfl
  intro p hp
  rcases List.mem_singleton.mp hp with rfl
  rfl

/-- C1 counterexample: with `ib.cancelMktData` failing during the evictions
of a positions sync, a stock-scanner pass that fills 30 scanner slots
followed by a 21-position sync drives `_subscriptions` to 51 entries, one
above `IB_MAX_SUBSCRIPTIONS = 50`: the 51st admission calls `_make_room`,
whose `_unsubscribe` swallows the teardown exception without deleting the
record, yet still returns `True`, so `_subscribe` creates the new record on
top of a full map. -/
theorem capacity_ceiling_exceeded_when_teardown_fails :
    IB_MAX_SUBSCRIPTIONS <
      ((runOps initState
        [Op.stockScan ((List.range 30).map (fun i =>
            ⟨"S" ++ toString i, true, true, 0⟩)) (fun _ => true),
         Op.posSync ((List.range 21).map (fun i =>
            ⟨"P" ++ toString i, true, true, false, 1⟩))]).subscriptions.length : Int) ∧
    (runOps initState
        [Op.stockScan ((List.range 30).map (fun i =>
            ⟨"S" ++ toString i, true, true, 0⟩)) (fun _ => true),
         Op.posSync ((List.range 21).map (fun i =>
            ⟨"P" ++ toString i, true, true, false, 1⟩))]).capacity = IB_MAX_SUBSCRIPTIONS := by
  decide

/-- C2 (amended): on any subscription map with distinct keys (as every
reachable `_subscriptions` dict has), `_make_room` never removes an entry of
priority `PRIORITY_POSITION` for any `required_priority` up to
`PRIORITY_POSITION` — which covers every call site, since `_subscribe` is
only ever invoked with `PRIORITY_POSITION`, `PRIORITY_FUTURES` or
`PRIORITY_SCANNER` — and `_cleanup_stale` never removes an entry of
priority at least `PRIORITY_FUTURES` (positions and futures), whatever the
current time and idle ages.  (The unamended claim quantifies over ALL
`required_priority` arguments and fails at `required_priority = 101`; see
the counterexample theorem.) -/
theorem protected_tiers_survive_eviction_and_sweep (st : MState)
    (hnd : (st.subscriptions.map Prod.fst).Nodup) :
    (∀ required_priority cancelOk sym info,
        required_priority ≤ PRIORITY_POSITION →
        alookup st.subscriptions sym = some info →
        info.priority = PRIORITY_POSITION →
        alookup (make_room st required_priority cancelOk).1.subscriptions sym
          = some info) ∧
    (∀ now cancelOks sym info,
        alookup st.subscriptions sym = some info →
        PRIORITY_FUTURES ≤ info.priority →
        alookup (cleanup_stale st now cancelOks).subscriptions sym = some info) := by
  constructor
  · intro required cancelOk sym info hreq hlook hprio
    unfold make_room
    cases hs : sortByKey (candidatesOf st required) with
    | nil => exact hlook
    | cons c cs =>
        have hcmem : c ∈ candidatesOf st required :=
          (mem_sortByKey c _).mp (hs ▸ List.mem_cons_self c cs)
        have hcf := List.mem_filter.mp hcmem
        have hclt : c.2.priority < required := of_decide_eq_true hcf.2
        have hne : sym ≠ c.1 := by
          intro he
          have hcl : alookup st.subscriptions c.1 = some c.2 := by
            apply alookup_of_mem_nodup _ _ _ hnd
            rw [Prod.mk.eta]
            exact hcf.1
          rw [← he, hlook] at hcl
          injection hcl with hv
          rw [← hv] at hclt
          omega
        show alookup (unsubscribe st c.1 cancelOk).subscriptions sym = some info
        rw [unsubscribe_alookup_ne st c.1 sym cancelOk hne]
        exact hlook
  · intro now cancelOks sym info hlook hprio
    unfold cleanup_stale
    dsimp only
    have hns : sym ∉ (List.filter (fun p =>
        decide (p.2.priority < PRIORITY_FUTURES) &&
        decide (now - p.2.last_activity > 600)) st.subscriptions).map Prod.fst := by
      intro hmem
      rcases List.mem_map.mp hmem with ⟨p, hp, hfst⟩
      rcases List.mem_filter.mp hp with ⟨hpsub, hcond⟩
      simp only [Bool.and_eq_true, decide_eq_true_eq] at hcond
      have hlt : p.2.priority < PRIORITY_FUTURES := hcond.1
      have hpl : alookup st.subscriptions p.1 = some p.2 := by
        apply alookup_of_mem_nodup _ _ _ hnd
        rw [Prod.mk.eta]
        exact hpsub
      rw [hfst, hlook] at hpl
      injection hpl with hv
      rw [← hv] at hlt
      omega
    rw [foldl_unsubscribe_alookup _ _ _ _ hns]
    exact hlook

theorem protected_tiers_survive_eviction_and_sweep_witness :
    alookup (make_room { subscriptions := [("AAPL", ⟨100, 0, 0⟩),
        ("NQ", ⟨90, 0, 0⟩), ("XYZ", ⟨25, 0, 0⟩)], capacity := 50 }
        90 true).1.subscriptions "AAPL" = some ⟨100, 0, 0⟩ ∧
    alookup (cleanup_stale { subscriptions := [("AAPL", ⟨100, 0, 0⟩),
        ("NQ", ⟨90, 0, 0⟩), ("XYZ", ⟨25, 0, 0⟩)], capacity := 50 }
        10000 (fun _ => true)).subscriptions "NQ" = some ⟨90, 0, 0⟩ :=
  ⟨(protected_tiers_survive_eviction_and_sweep
      { subscriptions := [("AAPL", ⟨100, 0, 0⟩), ("NQ", ⟨90, 0, 0⟩),
        ("XYZ", ⟨25, 0, 0⟩)], capacity := 50 } (by decide)).1
      90 true "AAPL" ⟨100, 0, 0⟩ (by decide) (by decide) (by decide),
   (protected_tiers_survive_eviction_and_sweep
      { subscriptions := [("AAPL", ⟨100, 0, 0⟩), ("NQ", ⟨90, 0, 0⟩),
        ("XYZ", ⟨25, 0, 0⟩)], capacity := 50 } (by decide)).2
      10000 (fun _ => true) "NQ" ⟨90, 0, 0⟩ (by decide) (by decide)⟩

/-- C2 counterexample: on the reachable one-entry map holding only the
position "AAPL" (priority 100), `_make_room` with `required_priority = 101`
happily evicts the position entry and reports success — the protection of
Position-tier entries comes solely from the fact that no call site passes a
priority above `PRIORITY_POSITION`, not from `_make_room` itself. -/
theorem make_room_can_evict_position_entry :
    alookup (runOps initState
        [Op.posSync [⟨"AAPL", true, true, true, 0⟩]]).subscriptions "AAPL"
      = some ⟨100, 0, 0⟩ ∧
    make_room (runOps initState
        [Op.posSync [⟨"AAPL", true, true, true, 0⟩]]) 101 true
      = (⟨[], 50⟩, true) := by
  decide

/-- C3: whenever the evictable-candidate list of `_make_room` (entries with
priority strictly below the required priority) is non-empty, `_make_room`
returns `True` and unsubscribes exactly the head of the stable
`(priority, last_activity)` sort — a candidate that is minimal in the strict
two-key order: it has strictly lower priority than any candidate of higher
priority regardless of recency, and among candidates of equal priority its
`last_activity` is oldest.  The selection is the deterministic function
`sortByKey` of the candidate records. -/
theorem make_room_selects_two_key_minimum (st : MState)
    (required_priority : Int) (cancelOk : Bool) (e : String × SubInfo)
    (rest : List (String × SubInfo))
    (h : sortByKey (candidatesOf st required_priority) = e :: rest) :
    make_room st required_priority cancelOk = (unsubscribe st e.1 cancelOk, true) ∧
    e ∈ candidatesOf st required_priority ∧
    ∀ c ∈ candidatesOf st required_priority, evictKeyLe e.2 c.2 := by
  refine ⟨?_, ?_, ?_⟩
  · unfold make_room
    rw [h]
  · exact (mem_sortByKey e _).mp (h ▸ List.mem_cons_self e rest)
  · exact sortByKey_head_min _ e rest h

theorem make_room_selects_two_key_minimum_witness :
    make_room ⟨[("AAA", ⟨25, 0, 5⟩), ("BBB", ⟨25, 0, 3⟩), ("POS", ⟨100, 0, 0⟩)], 50⟩
        90 true
      = (unsubscribe ⟨[("AAA", ⟨25, 0, 5⟩), ("BBB", ⟨25, 0, 3⟩), ("POS", ⟨100, 0, 0⟩)], 50⟩
          "BBB" true, true) ∧
    ("BBB", (⟨25, 0, 3⟩ : SubInfo)) ∈
      candidatesOf ⟨[("AAA", ⟨25, 0, 5⟩), ("BBB", ⟨25, 0, 3⟩), ("POS", ⟨100, 0, 0⟩)], 50⟩ 90 ∧
    ∀ c ∈ candidatesOf ⟨[("AAA", ⟨25, 0, 5⟩), ("BBB", ⟨25, 0, 3⟩), ("POS", ⟨100, 0, 0⟩)], 50⟩ 90,
      evictKeyLe (⟨25, 0, 3⟩ : SubInfo) c.2 :=
  make_room_selects_two_key_minimum
    ⟨[("AAA", ⟨25, 0, 5⟩), ("BBB", ⟨25, 0, 3⟩), ("POS", ⟨100, 0, 0⟩)], 50⟩
    90 true ("BBB", ⟨25, 0, 3⟩) [("AAA", ⟨25, 0, 5⟩)] (by decide)

/-- C4 (amended): when the provider teardown call `ib.cancelMktData` raises
during `_unsubscribe`, the failure is logged and the call returns with the
subscription map COMPLETELY UNCHANGED — the bookkeeping record is NOT
removed, because the `del` sits after the provider call inside the same
`try` block; the record is removed exactly when the provider call succeeds.
(The unamended claim says the record is removed regardless; the
counterexample theorem refutes it.) -/
theorem unsubscribe_removes_record_only_on_provider_success (st : MState)
    (symbol : String) (hnd : (st.subscriptions.map Prod.fst).Nodup) :
    unsubscribe st symbol false = st ∧
    alookup (unsubscribe st symbol true).subscriptions symbol = none := by
  constructor
  · unfold unsubscribe
    cases halc : alookup st.subscriptions symbol with
    | none => rfl
    | some w => rfl
  · unfold unsubscribe
    cases halc : alookup st.subscriptions symbol with
    | none => exact halc
    | some w =>
        show alookup (aerase st.subscriptions symbol) symbol = none
        exact alookup_aerase_self_nodup _ _ hnd

theorem unsubscribe_removes_record_only_on_provider_success_witness :
    unsubscribe ⟨[("AAPL", ⟨25, 0, 0⟩)], 50⟩ "AAPL" false
      = ⟨[("AAPL", ⟨25, 0, 0⟩)], 50⟩ ∧
    alookup (unsubscribe ⟨[("AAPL", ⟨25, 0, 0⟩)], 50⟩ "AAPL" true).subscriptions
      "AAPL" = none :=
  unsubscribe_removes_record_only_on_provider_success
    ⟨[("AAPL", ⟨25, 0, 0⟩)], 50⟩ "AAPL" (by decide)

/-- C4 counterexample: on the reachable state holding the subscribed symbol
"AAPL", `_unsubscribe("AAPL")` with a raising `ib.cancelMktData` leaves
"AAPL" in `_subscriptions` — the record is not removed when the provider
call fails, contradicting the claim that the record is removed regardless. -/
theorem unsubscribe_keeps_record_when_cancel_raises :
    unsubscribe (subscribe initState "AAPL" 25 0 true true).1 "AAPL" false
      = (subscribe initState "AAPL" 25 0 true true).1 ∧
    alookup (unsubscribe (subscribe initState "AAPL" 25 0 true true).1
        "AAPL" false).subscriptions "AAPL" = some ⟨25, 0, 0⟩ := by
  decide

/-- C5 (amended): when the channel-open call `market_bus.subscribe` raises
during `_subscribe` of a not-yet-subscribed symbol, the admission is
ABORTED: `_subscribe` catches the exception, logs it, returns `False`, and
creates no subscription record — the record assignment sits after the
provider call inside the same `try` block.  (The unamended claim says the
symbol is admitted with its channel pending; the counterexample theorem
refutes it.) -/
theorem subscribe_provider_failure_creates_no_record (st : MState)
    (symbol : String) (priority now : Int) (cancelOk : Bool)
    (h : alookup st.subscriptions symbol = none) :
    (subscribe st symbol priority now false cancelOk).2 = false ∧
    alookup (subscribe st symbol priority now false cancelOk).1.subscriptions
      symbol = none := by
  unfold subscribe
  rw [h]
  dsimp only
  by_cases hcap : get_current_capacity st ≤ 0
  · rw [if_pos hcap]
    cases hs : sortByKey (candidatesOf st priority) with
    | nil =>
        rw [make_room, hs]
        exact ⟨rfl, h⟩
    | cons e es =>
        rw [make_room, hs]
        exact ⟨rfl, unsubscribe_alookup_none _ _ _ _ h⟩
  · rw [if_neg hcap]
    exact ⟨rfl, h⟩

theorem subscribe_provider_failure_creates_no_record_witness :
    (subscribe initState "AAPL" 100 0 false true).2 = false ∧
    alookup (subscribe initState "AAPL" 100 0 false true).1.subscriptions
      "AAPL" = none :=
  subscribe_provider_failure_creates_no_record initState "AAPL" 100 0 true
    (by decide)

/-- C5 counterexample: admitting the fresh symbol "AAPL" into the empty map
(free capacity available) with a raising `market_bus.subscribe` returns
`False` and leaves the map empty — no "admitted but channel pending" record
exists after `_subscribe` returns. -/
theorem subscribe_aborts_admission_when_channel_open_fails :
    subscribe initState "AAPL" 100 0 false true = (initState, false) ∧
    alookup (subscribe initState "AAPL" 100 0 false true).1.subscriptions
      "AAPL" = none := by
  decide

/-! ## Lemmas about the market data bus -/

theorem live_tick_spec (bus : Bus) (sym : String) (now : Int) (tk : Ticker)
    (px0 : Option Px) (ts0 : Int) (bus1 : Bus)
    (h : live_tick bus sym now tk = some (px0, ts0, bus1)) :
    ts0 = now ∧ bus1.subs = bus.subs ∧ bus1.last_hist_fetch = bus.last_hist_fetch ∧
    bus1.window = bus.window ∧
    alookup bus1.tickers sym = some { last := px0, ts := some now } := by
  unfold live_tick at h
  by_cases hsub : bus.subs.contains sym
  · rw [if_pos hsub] at h
    cases htk : tickerPx tk with
    | none =>
        rw [htk] at h
        cases hrec : alookup bus.tickers sym with
        | none =>
            rw [hrec] at h
            exact absurd h (by simp)
        | some rec0 =>
            rw [hrec] at h
            dsimp only at h
            injection h with h1
            injection h1 with ha hb
            injection hb with hb1 hb2
            subst ha
            subst hb1
            subst hb2
            exact ⟨rfl, rfl, rfl, rfl, alookup_aset_self _ _ _⟩
    | some p =>
        rw [htk] at h
        dsimp only at h
        injection h with h1
        injection h1 with ha hb
        injection hb with hb1 hb2
        subst ha
        subst hb1
        subst hb2
        refine ⟨rfl, rfl, rfl, rfl, ?_⟩
        unfold record_tick
        exact alookup_aset_self _ _ _
  · rw [if_neg hsub] at h
    exact absurd h (by simp)

theorem historical_fallback_blocked (bus : Bus) (sym : String) (t now : Int)
    (resp : HistResult) (hlhf : alookup bus.last_hist_fetch sym = some t)
    (ht : t ≠ 0) (hcool : now - t < FALLBACK_COOLDOWN_SECONDS) :
    historical_fallback bus sym now resp = (bus, false) := by
  unfold historical_fallback
  rw [hlhf]
  dsimp only
  rw [if_pos ⟨ht, hcool⟩]

theorem historical_fallback_fetch_records_time (bus : Bus) (sym : String)
    (now : Int) (resp : HistResult)
    (h : (historical_fallback_fetch bus sym now resp).2 = true) :
    alookup (historical_fallback_fetch bus sym now resp).1.last_hist_fetch sym
      = some now := by
  unfold historical_fallback_fetch at h ⊢
  by_cases hsub : bus.subs.contains sym
  · rw [if_pos hsub] at h ⊢
    dsimp only at h ⊢
    cases hr : respLastBar resp with
    | none => exact alookup_aset_self _ _ _
    | some close => exact alookup_aset_self _ _ _
  · rw [if_neg hsub] at h
    simp at h

theorem historical_fallback_records_fetch_time (bus : Bus) (sym : String)
    (now : Int) (resp : HistResult)
    (h : (historical_fallback bus sym now resp).2 = true) :
    alookup (historical_fallback bus sym now resp).1.last_hist_fetch sym
      = some now := by
  unfold historical_fallback at h ⊢
  cases hl : alookup bus.last_hist_fetch sym with
  | none =>
      rw [hl] at h
      exact historical_fallback_fetch_records_time bus sym now resp h
  | some t =>
      rw [hl] at h
      dsimp only at h ⊢
      by_cases hc : t ≠ 0 ∧ now - t < FALLBACK_COOLDOWN_SECONDS
      · rw [if_pos hc] at h
        simp at h
      · rw [if_neg hc] at h ⊢
        exact historical_fallback_fetch_records_time bus sym now resp h

theorem historical_fallback_fetch_tickers_unchanged (bus : Bus) (sym : String)
    (now : Int) (resp : HistResult) (hr : respLastBar resp = none) :
    (historical_fallback_fetch bus sym now resp).1.tickers = bus.tickers := by
  unfold historical_fallback_fetch
  by_cases hsub : bus.subs.contains sym
  · rw [if_pos hsub]
    dsimp only
    rw [hr]
  · rw [if_neg hsub]

theorem historical_fallback_tickers_unchanged_no_bar (bus : Bus) (sym : String)
    (now : Int) (resp : HistResult) (hr : respLastBar resp = none) :
    (historical_fallback bus sym now resp).1.tickers = bus.tickers := by
  unfold historical_fallback
  cases hl : alookup bus.last_hist_fetch sym with
  | none => exact historical_fallback_fetch_tickers_unchanged bus sym now resp hr
  | some t =>
      dsimp only
      by_cases hc : t ≠ 0 ∧ now - t < FALLBACK_COOLDOWN_SECONDS
      · rw [if_pos hc]
      · rw [if_neg hc]
        exact historical_fallback_fetch_tickers_unchanged bus sym now resp hr

theorem needs_fallback_at_now (px0 : Option Px) (now : Int) (weekday tod : Nat) :
    needs_fallback px0 (some now) now weekday tod
      = (isNoneOrNan px0 || !(is_market_hours weekday tod).1) := by
  unfold needs_fallback tsTruthy
  have h5 : ¬ (FALLBACK_TRIGGER_SECONDS ≤ now - (some now).getD 0) := by
    unfold FALLBACK_TRIGGER_SECONDS
    simp only [Option.getD_some]
    omega
  have h0 : decide (FALLBACK_TRIGGER_SECONDS ≤ (0 : Int)) = false :=
    decide_eq_false (by unfold FALLBACK_TRIGGER_SECONDS; omega)
  simp [h5, h0]

theorem isSomeNan_eq_false_of_not_noneOrNan (px : Option Px)
    (h : isNoneOrNan px = false) : isSomeNan px = false := by
  cases px with
  | none => simp [isNoneOrNan] at h
  | some p =>
      cases p with
      | nan => simp [isNoneOrNan] at h
      | num q => rfl
      | inf => rfl
      | ninf => rfl

/-! ## Claim theorems for the freshness/fallback bus -/

/-- C6 (amended): on the live-tick path a NaN provider price is normalized
to "no update": when the price chain
`ticker.last or ticker.close or ticker.marketPrice() or ticker.midpoint()`
yields NaN, `_live_tick` leaves the stored last price and the price history
unchanged (only the tick timestamp advances) and returns the old stored
price.  No such guard exists on the historical-fallback path, which records
the bar close unchecked (see the counterexample below), nor for non-NaN
non-finite values, which the `math.isnan` test does not detect. -/
theorem live_path_never_stores_nan (bus : Bus) (sym : String) (now : Int)
    (tk : Ticker)
    (hnan : isSomeNan (pyOr tk.last (pyOr tk.close (pyOr tk.marketPrice tk.midpoint))) = true) :
    ∀ px1 ts1 bus1, live_tick bus sym now tk = some (px1, ts1, bus1) →
      bus1.history = bus.history ∧
      (alookup bus1.tickers sym).bind TickRec.last
        = (alookup bus.tickers sym).bind TickRec.last ∧
      px1 = (alookup bus.tickers sym).bind TickRec.last := by
  intro px1 ts1 bus1 h
  have htk : tickerPx tk = none := by
    unfold tickerPx
    dsimp only
    rw [if_pos hnan]
  unfold live_tick at h
  by_cases hsub : bus.subs.contains sym
  · rw [if_pos hsub, htk] at h
    cases hrec : alookup bus.tickers sym with
    | none =>
        rw [hrec] at h
        exact absurd h (by simp)
    | some rec0 =>
        rw [hrec] at h
        dsimp only at h
        injection h with h1
        injection h1 with ha hb
        injection hb with hb1 hb2
        subst ha
        subst hb2
        refine ⟨rfl, ?_, rfl⟩
        rw [alookup_aset_self]
        rfl
  · rw [if_neg hsub] at h
    exact absurd h (by simp)

theorem live_path_never_stores_nan_witness :
    (⟨["AAPL"], [("AAPL", ⟨none, some 100⟩)], [("AAPL", [])], [], 600⟩ : Bus).history
      = (⟨["AAPL"], [("AAPL", ⟨none, none⟩)], [("AAPL", [])], [], 600⟩ : Bus).history ∧
    (alookup (⟨["AAPL"], [("AAPL", ⟨none, some 100⟩)], [("AAPL", [])], [],
        600⟩ : Bus).tickers "AAPL").bind TickRec.last
      = (alookup (⟨["AAPL"], [("AAPL", ⟨none, none⟩)], [("AAPL", [])], [],
        600⟩ : Bus).tickers "AAPL").bind TickRec.last ∧
    (none : Option Px)
      = (alookup (⟨["AAPL"], [("AAPL", ⟨none, none⟩)], [("AAPL", [])], [],
        600⟩ : Bus).tickers "AAPL").bind TickRec.last :=
  live_path_never_stores_nan
    ⟨["AAPL"], [("AAPL", ⟨none, none⟩)], [("AAPL", [])], [], 600⟩ "AAPL" 100
    ⟨some Px.nan, some Px.nan, some Px.nan, some Px.nan⟩ (by decide)
    none 100 ⟨["AAPL"], [("AAPL", ⟨none, some 100⟩)], [("AAPL", [])], [], 600⟩
    (by decide)

/-- C6 counterexample: the historical-fallback path records a NaN bar close
verbatim: on a never-ticked subscribed symbol, a fallback whose last bar
closes at NaN stores NaN as the last price and appends NaN to the price
history — `float(last_bar.close)` and `_record_tick` perform no finiteness
check, contradicting the claim that non-finite prices are never stored,
including via `_historical_fallback`. -/
theorem historical_fallback_stores_nan_bar_close :
    historical_fallback
        ⟨["AAPL"], [("AAPL", ⟨none, none⟩)], [("AAPL", [])], [], 600⟩
        "AAPL" 100 (HistResult.ok [Px.nan])
      = (⟨["AAPL"], [("AAPL", ⟨some Px.nan, some 100⟩)], [("AAPL", [Px.nan])],
          [("AAPL", 100)], 600⟩, true) := by
  decide

/-- C7: the historical fallback is rate-limited per symbol by
`FALLBACK_COOLDOWN_SECONDS`, whether the fetch succeeds or fails: (1) any
invocation that issues the request first records the call time in
`_last_hist_fetch`; (2) any `get_last` call whose time lies strictly within
the cooldown window after a (positive, as `time.time()` always is) recorded
fetch time returns without issuing a historical-data request and without
touching the recorded fetch state — hence at most one fetch per cooldown
window, however many rapid `get_last` calls arrive. -/
theorem fallback_fetch_rate_limited :
    (∀ (bus : Bus) (sym : String) (now : Int) (resp : HistResult),
        (historical_fallback bus sym now resp).2 = true →
        alookup (historical_fallback bus sym now resp).1.last_hist_fetch sym
          = some now) ∧
    (∀ (bus : Bus) (sym : String) (t now : Int) (tk : Ticker)
        (weekday tod : Nat) (resp : HistResult) (r : ReadResult),
        alookup bus.last_hist_fetch sym = some t → 0 < t →
        now - t < FALLBACK_COOLDOWN_SECONDS →
        get_last bus sym now tk weekday tod resp = some r →
        r.fetched = false ∧ r.bus.last_hist_fetch = bus.last_hist_fetch) := by
  constructor
  · exact historical_fallback_records_fetch_time
  · intro bus sym t now tk wd tod resp r hlhf ht hcool hg
    unfold get_last at hg
    cases hl : live_tick bus sym now tk with
    | none =>
        rw [hl] at hg
        exact absurd hg (by simp)
    | some trip =>
        obtain ⟨px0, ts0, bus1⟩ := trip
        rw [hl] at hg
        dsimp only at hg
        have hspec := live_tick_spec bus sym now tk px0 ts0 bus1 hl
        have hlhf1 : alookup bus1.last_hist_fetch sym = some t := by
          rw [hspec.2.2.1]
          exact hlhf
        have hblock : historical_fallback bus1 sym now resp = (bus1, false) :=
          historical_fallback_blocked bus1 sym t now resp hlhf1 (by omega) hcool
        injection hg with hg1
        subst hg1
        dsimp only
        cases hneeds : needs_fallback px0
            ((alookup bus1.tickers sym).bind TickRec.ts) now wd tod with
        | true =>
            rw [if_pos rfl, hblock]
            exact ⟨rfl, hspec.2.2.1⟩
        | false =>
            rw [if_neg (by simp : ¬ (false = true))]
            exact ⟨rfl, hspec.2.2.1⟩

theorem fallback_fetch_rate_limited_witness :
    ((⟨none, 50, ⟨["AAPL"], [("AAPL", ⟨none, some 50⟩)], [("AAPL", [])],
        [("AAPL", 10)], 600⟩, true, false⟩ : ReadResult).fetched = false ∧
      (⟨none, 50, ⟨["AAPL"], [("AAPL", ⟨none, some 50⟩)], [("AAPL", [])],
        [("AAPL", 10)], 600⟩, true, false⟩ : ReadResult).bus.last_hist_fetch
        = (⟨["AAPL"], [("AAPL", ⟨none, none⟩)], [("AAPL", [])], [("AAPL", 10)],
            600⟩ : Bus).last_hist_fetch) :=
  fallback_fetch_rate_limited.2
    ⟨["AAPL"], [("AAPL", ⟨none, none⟩)], [("AAPL", [])], [("AAPL", 10)], 600⟩
    "AAPL" 10 50 ⟨some Px.nan, some Px.nan, some Px.nan, some Px.nan⟩ 0 600
    HistResult.err
    ⟨none, 50, ⟨["AAPL"], [("AAPL", ⟨none, some 50⟩)], [("AAPL", [])],
      [("AAPL", 10)], 600⟩, true, false⟩
    (by decide) (by decide) (by decide) (by decide)

/-- C8: packaging the successful `_live_tick` read that `get_last` performs
first, `get_last` invokes the historical fallback exactly when the
staleness verdict holds: (a) no usable primary price exists (`None`, or
NaN, which the data model normalizes to "no value"), OR (b) the stored
primary timestamp is more than `FALLBACK_TRIGGER_SECONDS` before the call
time, OR (c) `is_market_hours` reports a non-tradable phase; when none of
(a)-(c) holds the live price is returned directly with no fallback. -/
theorem read_price_fallback_exactly_on_staleness_verdict (bus : Bus)
    (sym : String) (now : Int) (tk : Ticker) (weekday tod : Nat)
    (resp : HistResult) (px0 : Option Px) (ts0 : Int) (bus1 : Bus)
    (r : ReadResult) (hl : live_tick bus sym now tk = some (px0, ts0, bus1))
    (hg : get_last bus sym now tk weekday tod resp = some r) :
    (r.attempted = true ↔
      (isNoneOrNan px0 = true ∨
        (∃ t, (alookup bus1.tickers sym).bind TickRec.ts = some t ∧
          now - t > FALLBACK_TRIGGER_SECONDS) ∨
        (is_market_hours weekday tod).1 = false)) ∧
    (r.attempted = false → r.px = px0 ∧ r.fetched = false) := by
  have hspec := live_tick_spec bus sym now tk px0 ts0 bus1 hl
  have hts : (alookup bus1.tickers sym).bind TickRec.ts = some now := by
    rw [hspec.2.2.2.2]
    rfl
  have hnotb : ¬ (∃ t, (some now : Option Int) = some t ∧
      now - t > FALLBACK_TRIGGER_SECONDS) := by
    rintro ⟨t, hteq, hgt⟩
    injection hteq with hte
    subst hte
    unfold FALLBACK_TRIGGER_SECONDS at hgt
    omega
  unfold get_last at hg
  rw [hl] at hg
  dsimp only at hg
  rw [hts, needs_fallback_at_now] at hg
  injection hg with hg1
  subst hg1
  dsimp only
  constructor
  · rw [hts]
    constructor
    · intro hb
      simp only [Bool.or_eq_true, Bool.not_eq_true'] at hb
      rcases hb with h1 | h2
      · exact Or.inl h1
      · exact Or.inr (Or.inr h2)
    · intro hv
      rcases hv with h1 | h2 | h3
      · simp [h1]
      · exact absurd h2 hnotb
      · simp [h3]
  · intro hatt
    have h1 : isNoneOrNan px0 = false := by
      rcases Bool.or_eq_false_iff.mp hatt with ⟨ha, _⟩
      exact ha
    rw [hatt]
    constructor
    · show (if isSomeNan (if (false : Bool) = true then _ else px0) = true
          then none else if (false : Bool) = true then _ else px0) = px0
      rw [if_neg (by simp : ¬ ((false : Bool) = true))]
      rw [isSomeNan_eq_false_of_not_noneOrNan px0 h1]
      simp
    · show (if (false : Bool) = true then historical_fallback bus1 sym now resp
          else (bus1, false)).2 = false
      rw [if_neg (by simp : ¬ ((false : Bool) = true))]

theorem read_price_fallback_exactly_on_staleness_verdict_witness :
    ((⟨some (Px.num 7), 100, ⟨["AAPL"], [("AAPL", ⟨some (Px.num 7), some 100⟩)],
        [("AAPL", [Px.num 7])], [], 600⟩, false, false⟩ : ReadResult).attempted = true ↔
      (isNoneOrNan (some (Px.num 7)) = true ∨
        (∃ t, (alookup (⟨["AAPL"], [("AAPL", ⟨some (Px.num 7), some 100⟩)],
            [("AAPL", [Px.num 7])], [], 600⟩ : Bus).tickers "AAPL").bind TickRec.ts
              = some t ∧ 100 - t > FALLBACK_TRIGGER_SECONDS) ∨
        (is_market_hours 0 600).1 = false)) ∧
    ((⟨some (Px.num 7), 100, ⟨["AAPL"], [("AAPL", ⟨some (Px.num 7), some 100⟩)],
        [("AAPL", [Px.num 7])], [], 600⟩, false, false⟩ : ReadResult).attempted = false →
      (⟨some (Px.num 7), 100, ⟨["AAPL"], [("AAPL", ⟨some (Px.num 7), some 100⟩)],
        [("AAPL", [Px.num 7])], [], 600⟩, false, false⟩ : ReadResult).px
          = some (Px.num 7) ∧
      (⟨some (Px.num 7), 100, ⟨["AAPL"], [("AAPL", ⟨some (Px.num 7), some 100⟩)],
        [("AAPL", [Px.num 7])], [], 600⟩, false, false⟩ : ReadResult).fetched = false) :=
  read_price_fallback_exactly_on_staleness_verdict
    ⟨["AAPL"], [("AAPL", ⟨some (Px.num 7), some 40⟩)], [("AAPL", [])], [], 600⟩
    "AAPL" 100 ⟨some (Px.num 7), none, none, none⟩ 0 600 HistResult.err
    (some (Px.num 7)) 100
    ⟨["AAPL"], [("AAPL", ⟨some (Px.num 7), some 100⟩)], [("AAPL", [Px.num 7])], [], 600⟩
    ⟨some (Px.num 7), 100, ⟨["AAPL"], [("AAPL", ⟨some (Px.num 7), some 100⟩)],
      [("AAPL", [Px.num 7])], [], 600⟩, false, false⟩
    (by decide) (by decide)

/-- C9: a subscribed symbol that has never received a tick (stored last
price `None`), whose provider ticker yields no usable live price, and whose
historical fallback returns no bars (or raises), gets `None` back from
`get_last` as the price — never `0.0`, never NaN, never the value of
another instrument. -/
theorem read_price_no_synthetic_zero (bus : Bus) (sym : String) (now : Int)
    (tk : Ticker) (weekday tod : Nat) (resp : HistResult) (rec0 : TickRec)
    (r : ReadResult) (hrec : alookup bus.tickers sym = some rec0)
    (hlast : rec0.last = none) (htk : tickerPx tk = none)
    (hresp : respLastBar resp = none)
    (hg : get_last bus sym now tk weekday tod resp = some r) :
    r.px = none := by
  by_cases hsub : bus.subs.contains sym
  · have hl : live_tick bus sym now tk
        = some (none, now, { bus with tickers := aset bus.tickers sym ⟨none, some now⟩ }) := by
      unfold live_tick
      rw [if_pos hsub, htk, hrec]
      dsimp only
      rw [hlast]
    unfold get_last at hg
    rw [hl] at hg
    dsimp only at hg
    injection hg with hg1
    subst hg1
    dsimp only
    have hneeds : ∀ (o : Option Int),
        needs_fallback none o now weekday tod = true := fun _ => rfl
    have hred : ∀ {α : Type} (a b : α), (if true = true then a else b) = a :=
      fun a b => if_pos rfl
    rw [hneeds]
    simp only [hred, eq_self_iff_true, if_true]
    rw [historical_fallback_tickers_unchanged_no_bar _ _ _ _ hresp]
    dsimp only
    rw [alookup_aset_self]
    rfl
  · unfold get_last live_tick at hg
    rw [if_neg hsub] at hg
    exact absurd hg (by simp)

theorem read_price_no_synthetic_zero_witness :
    (⟨none, 100, ⟨["AAPL"], [("AAPL", ⟨none, some 100⟩)], [("AAPL", [])],
        [("AAPL", 100)], 600⟩, true, true⟩ : ReadResult).px = none :=
  read_price_no_synthetic_zero
    ⟨["AAPL"], [("AAPL", ⟨none, none⟩)], [("AAPL", [])], [], 600⟩ "AAPL" 100
    ⟨some Px.nan, some Px.nan, some Px.nan, some Px.nan⟩ 0 600 HistResult.err
    ⟨none, none⟩
    ⟨none, 100, ⟨["AAPL"], [("AAPL", ⟨none, some 100⟩)], [("AAPL", [])],
      [("AAPL", 100)], 600⟩, true, true⟩
    (by decide) (by decide) (by decide) (by decide) (by decide)

/-- C10 (implicit): when the provider reports no usable price (`None` or
NaN), `_live_tick` returns the old stored last price unchanged but rewrites
the tickers record with the CURRENT call time as its timestamp; hence
inside any `get_last` call the stored age is measured against the moment of
this very read, the age-based staleness clause never fires, and a fallback
attempt happens exactly on a missing/NaN price or a non-tradable phase. -/
theorem live_tick_overwrites_timestamp_keeps_price (bus : Bus) (sym : String)
    (now : Int) (tk : Ticker) (rec0 : TickRec)
    (hsub : bus.subs.contains sym = true)
    (hrec : alookup bus.tickers sym = some rec0)
    (htk : tickerPx tk = none) :
    live_tick bus sym now tk
      = some (rec0.last, now, { bus with tickers := aset bus.tickers sym ⟨rec0.last, some now⟩ }) ∧
    ∀ weekday tod resp r, get_last bus sym now tk weekday tod resp = some r →
      r.attempted = (isNoneOrNan rec0.last || !(is_market_hours weekday tod).1) := by
  have hl : live_tick bus sym now tk
      = some (rec0.last, now, { bus with tickers := aset bus.tickers sym ⟨rec0.last, some now⟩ }) := by
    unfold live_tick
    rw [if_pos hsub, htk, hrec]
  refine ⟨hl, ?_⟩
  intro wd tod resp r hg
  have hspec := live_tick_spec bus sym now tk rec0.last now _ hl
  have hts : (alookup (aset bus.tickers sym ⟨rec0.last, some now⟩) sym).bind TickRec.ts
      = some now := by
    rw [alookup_aset_self]
    rfl
  unfold get_last at hg
  rw [hl] at hg
  dsimp only at hg
  rw [hts, needs_fallback_at_now] at hg
  injection hg with hg1
  subst hg1
  rfl

theorem live_tick_overwrites_timestamp_keeps_price_witness :
    live_tick (⟨["AAPL"], [("AAPL", ⟨some (Px.num 3), some 10⟩)], [("AAPL", [])],
        [], 600⟩ : Bus) "AAPL" 100 ⟨some Px.nan, some Px.nan, some Px.nan, some Px.nan⟩
      = some (some (Px.num 3), 100,
          (⟨["AAPL"], [("AAPL", ⟨some (Px.num 3), some 100⟩)], [("AAPL", [])],
            [], 600⟩ : Bus)) ∧
    ∀ weekday tod resp r,
      get_last (⟨["AAPL"], [("AAPL", ⟨some (Px.num 3), some 10⟩)], [("AAPL", [])],
          [], 600⟩ : Bus) "AAPL" 100
          ⟨some Px.nan, some Px.nan, some Px.nan, some Px.nan⟩ weekday tod resp
        = some r →
      r.attempted = (isNoneOrNan (some (Px.num 3)) || !(is_market_hours weekday tod).1) :=
  live_tick_overwrites_timestamp_keeps_price
    ⟨["AAPL"], [("AAPL", ⟨some (Px.num 3), some 10⟩)], [("AAPL", [])], [], 600⟩
    "AAPL" 100 ⟨some Px.nan, some Px.nan, some Px.nan, some Px.nan⟩
    ⟨some (Px.num 3), some 10⟩ (by decide) (by decide) (by decide)
